import Mathlib

/-!
Shallow embedding of the `modsite` Go package (module.go, site.go, forge.go):
a generator of static "vanity import path" HTML sites.  Go strings are
modelled as Lean `String`s and byte-level operations are carried out at the
character level (all byte positions used by the source lie on rune
boundaries, because they always arise from a `HasPrefix`/`HasSuffix` check
against another valid string).  Go maps whose iteration order is irrelevant
to the claims are modelled as association lists in insertion order.
-/

namespace Modsite

/-- Go unicode.IsSpace: the Unicode White_Space property, i.e. the
characters U+0009..U+000D, U+0020, U+0085, U+00A0, U+1680,
U+2000..U+200A, U+2028, U+2029, U+202F, U+205F and U+3000. -/
def goIsSpace (c : Char) : Bool :=
  let n := c.toNat
  (0x9 ≤ n && n ≤ 0xD) || n == 0x20 || n == 0x85 || n == 0xA0 ||
  n == 0x1680 || (0x2000 ≤ n && n ≤ 0x200A) ||
  n == 0x2028 || n == 0x2029 || n == 0x202F || n == 0x205F || n == 0x3000

/-- Go strings.ContainsFunc(s, unicode.IsSpace): whether any rune of `s`
is Unicode whitespace. -/
def containsSpace (s : String) : Bool :=
  s.data.any goIsSpace

/-- Go strings.Join(elems, sep): the elements concatenated with `sep`
between consecutive ones. -/
def goJoin (elems : List String) (sep : String) : String :=
  match elems with
  | [] => ""
  | e :: rest => rest.foldl (fun acc x => acc ++ sep ++ x) e

/-- Splitting a character list at every occurrence of the character `c`
(the character-level core of Go strings.Split with a one-character
separator). -/
def splitOnChar (c : Char) : List Char → List (List Char)
  | [] => [[]]
  | x :: xs =>
    if x = c then [] :: splitOnChar c xs
    else
      match splitOnChar c xs with
      | [] => [[x]]
      | y :: ys => (x :: y) :: ys

/-- Go strings.Split(s, " "): split on every single space. -/
def goSplitSpace (s : String) : List String :=
  (splitOnChar ' ' s.data).map String.mk

/-- Go strings.HasPrefix(s, p). -/
def goHasPrefixStr (s p : String) : Bool :=
  p.data.isPrefixOf s.data

/-- Go strings.HasSuffix(s, p). -/
def goHasSuffixStr (s p : String) : Bool :=
  s.data.reverse.take p.data.length == p.data.reverse

/-- Go strings.TrimSuffix(s, suf): remove one trailing copy of `suf`
when present. -/
def goTrimSuffix (s suf : String) : String :=
  if goHasSuffixStr s suf then String.mk (s.data.take (s.data.length - suf.data.length)) else s

/-- Go strings.TrimPrefix(s, p): remove one leading copy of `p` when
present. -/
def goTrimPrefixStr (s p : String) : String :=
  if goHasPrefixStr s p then String.mk (s.data.drop p.data.length) else s

/-- Module (module.go): information for a go module with a custom VCS path. -/
structure Module where
  ImportPath : String
  VCSType : String
  RepoURL : String
  HomePage : String
  DirectoryLinkTemplate : String
  FileLinkTemplate : String
deriving DecidableEq, Repr

/-- The typed validation failure reasons of module.go (errInvalidModuleName
and friends). -/
inductive ValidationError where
  | invalidModuleName
  | unsupportedVCS
  | invalidRepoURL
  | invalidRepoSubdirectory
  | invalidHomePage
  | invalidDirectoryLinkTemplate
  | invalidFileLinkTemplate
deriving DecidableEq, Repr

/-- supportedVCS (module.go): the whitelist of VCS kinds. -/
def supportedVCS : List String :=
  ["bzr", "fossil", "git", "hg", "svn"]

namespace Module

/-- Module.ValidateGoImport (module.go): checks if this module can generate
a "go-import" meta tag, returning the first failing constraint. -/
def ValidateGoImport (mod : Module) : Option ValidationError :=
  if mod.ImportPath = "" ∨ containsSpace mod.ImportPath then some .invalidModuleName
  else if mod.VCSType ∉ supportedVCS then some .unsupportedVCS
  else if mod.RepoURL = "" ∨ containsSpace mod.RepoURL then some .invalidRepoURL
  else none

/-- Module.GoImport (module.go): the value of the "go-import" tag, or the
empty string when the module data is invalid. -/
def GoImport (mod : Module) : String :=
  match mod.ValidateGoImport with
  | some _ => ""
  | none => goJoin [mod.ImportPath, mod.VCSType, mod.RepoURL] " "

/-- Module.GoSource (module.go): the value of the "go-source" tag, or the
empty string when the data is invalid; an empty home page is replaced by
the sentinel underscore. -/
def GoSource (mod : Module) : String :=
  if mod.ImportPath = "" ∨ containsSpace mod.ImportPath then ""
  else
    let homePage := if mod.HomePage = "" then "_" else mod.HomePage
    if containsSpace homePage then ""
    else if mod.DirectoryLinkTemplate = "" ∨ containsSpace mod.DirectoryLinkTemplate then ""
    else if mod.FileLinkTemplate = "" ∨ containsSpace mod.FileLinkTemplate then ""
    else mod.ImportPath ++ " " ++ homePage ++ " " ++ mod.DirectoryLinkTemplate ++ " " ++ mod.FileLinkTemplate

/-- Module.ValidateGoSource (module.go): checks if this module can generate
a "go-source" meta tag, returning the first failing constraint. -/
def ValidateGoSource (mod : Module) : Option ValidationError :=
  if mod.ImportPath = "" ∨ containsSpace mod.ImportPath then some .invalidModuleName
  else if mod.HomePage ≠ "" ∧ containsSpace mod.HomePage then some .invalidHomePage
  else if mod.DirectoryLinkTemplate = "" ∨ containsSpace mod.DirectoryLinkTemplate then some .invalidDirectoryLinkTemplate
  else if mod.FileLinkTemplate = "" ∨ containsSpace mod.FileLinkTemplate then some .invalidFileLinkTemplate
  else none

end Module

/-- HTML escaping of a single character as performed by Go's html/template
package inside a double-quoted attribute value. -/
def htmlEscapeChar (c : Char) : List Char :=
  if c = '&' then "&amp;".data
  else if c = '<' then "&lt;".data
  else if c = '>' then "&gt;".data
  else if c = '"' then "&#34;".data
  else if c = '\'' then "&#39;".data
  else [c]

/-- HTML escaping of a string (html/template attribute context). -/
def htmlEscape (s : String) : String :=
  String.mk (s.data.map htmlEscapeChar).flatten

/-- renderMeta (module.go): the fixed template
a meta element whose name and value attributes are substituted with HTML
attribute escaping by html/template. -/
def renderMeta (name value : String) : String :=
  "<meta name=\"" ++ htmlEscape name ++ "\" value=\"" ++ htmlEscape value ++ "\">"

namespace Module

/-- Module.GoImportTag (module.go): the "go-import" meta tag, or the empty
string when the module data is invalid. -/
def GoImportTag (mod : Module) : String :=
  let content := mod.GoImport
  if content = "" then "" else renderMeta "go-import" content

/-- Module.GoSourceTag (module.go): the "go-source" meta tag, or the empty
string when the module data is invalid. -/
def GoSourceTag (mod : Module) : String :=
  let content := mod.GoSource
  if content = "" then "" else renderMeta "go-source" content

end Module

example : Module.GoImport ⟨"example.org/mod", "git", "https://example.org/mod", "", "", ""⟩ =
    "example.org/mod git https://example.org/mod" := by rfl

example : Module.GoImport ⟨"example.org/mod", "cvs", "https://example.org/mod", "", "", ""⟩ = "" := by rfl

example : Module.GoSource ⟨"a", "git", "u", "", "d", "f"⟩ = "a _ d f" := by rfl

/-- Processing the slash-separated components of a path with the component
stack of Go's path.Clean: empty components and "." are dropped, ".." pops a
normal component, is dropped at the root, and accumulates at the front of a
relative path.  The stack is kept in reverse order (most recent first). -/
def cleanComponents (rooted : Bool) : List String → List String → List String
  | stack, [] => stack
  | stack, c :: cs =>
    if c = "" ∨ c = "." then cleanComponents rooted stack cs
    else if c = ".." then
      match stack with
      | [] => if rooted then cleanComponents rooted [] cs else cleanComponents rooted [".."] cs
      | top :: rest =>
        if top = ".." then cleanComponents rooted (c :: top :: rest) cs
        else cleanComponents rooted rest cs
    else cleanComponents rooted (c :: stack) cs

/-- Go path.Clean (equal to filepath.Clean on Unix, the platform the
repository builds for): shortest lexically-equivalent path. -/
def pathClean (path : String) : String :=
  if path = "" then "."
  else
    let rooted : Bool := match path.data with | '/' :: _ => true | _ => false
    let comps := (splitOnChar '/' path.data).map String.mk
    let stack := (cleanComponents rooted [] comps).reverse
    let body := goJoin stack "/"
    if rooted then (if body = "" then "/" else "/" ++ body)
    else (if body = "" then "." else body)

/-- Go filepath.Join on two elements (Unix): the non-empty elements joined
by "/" and cleaned; the empty string when both are empty. -/
def filepathJoin (a b : String) : String :=
  if a = "" ∧ b = "" then ""
  else if a = "" then pathClean b
  else if b = "" then pathClean (a ++ "/")
  else pathClean (a ++ "/" ++ b)

example : pathClean "/mod/index.html" = "/mod/index.html" := by rfl

example : pathClean "a/../..//./b/" = "../b" := by rfl

example : filepathJoin "" "index.html" = "index.html" := by rfl

namespace Module

/-- Module.HomePageURL (site.go): the human-facing homepage link, falling
back to the pkg.go.dev documentation page. -/
def HomePageURL (mod : Module) : String :=
  if mod.HomePage ≠ "" ∧ mod.HomePage ≠ "_" then mod.HomePage
  else "https://pkg.go.dev/" ++ mod.ImportPath

/-- Module.SourceCodeURL (site.go): the human-facing source link; empty
when there is no directory link template. -/
def SourceCodeURL (mod : Module) : String :=
  if mod.DirectoryLinkTemplate = "" then ""
  else if mod.HomePage ≠ "" ∧ mod.HomePage ≠ "_" then mod.HomePage
  else "https://pkg.go.dev/" ++ mod.ImportPath

end Module

/-- Modelled from the spec: the embedded asset site_module.html is not in
src/, so the rendering backend (html/template execution of that fixed
skeleton) is modelled as a total function substituting the descriptor's
fields and the footer into a fixed HTML skeleton: the go-import meta tag,
the optional go-source meta tag, the human-facing links and the footer. -/
def renderModuleHTML (mod : Module) (footer : String) : String :=
  "<!doctype html><html><head>" ++ mod.GoImportTag ++ mod.GoSourceTag
    ++ "</head><body><h1>" ++ mod.ImportPath ++ "</h1><a href=\"" ++ mod.HomePageURL
    ++ "\">homepage</a><a href=\"" ++ mod.SourceCodeURL ++ "\">source</a><footer>"
    ++ footer ++ "</footer></body></html>"

/-- The error returned by Module.RenderSite (site.go): the wrapped go-import
validation failure.  Execution of the fixed built-in skeleton on a context
that always carries every referenced field cannot fail, so the wrapped
template-execution branch of the source is unreachable in this model. -/
inductive RenderError where
  | invalidGoImport (e : ValidationError)
deriving DecidableEq, Repr

/-- Module.RenderSite (site.go) with the rendering backend as an explicit
parameter: fails with the wrapped validation error before consulting the
backend when the module has no valid go-import, and otherwise returns the
backend's output (the io.Writer of the source is modelled as the returned
string). -/
def RenderSiteWith (backend : Module → String → String) (mod : Module) (footer : String) :
    Except RenderError String :=
  match mod.ValidateGoImport with
  | some e => .error (.invalidGoImport e)
  | none => .ok (backend mod footer)

namespace Module

/-- Module.RenderSite (site.go): render the site template for this module. -/
def RenderSite (mod : Module) (footer : String) : Except RenderError String :=
  RenderSiteWith renderModuleHTML mod footer

end Module

/-- getModuleHTMLPath (site.go): the relative output path of a module under
the given base, or none when the import path does not start with the
normalized base. -/
def getModuleHTMLPath (mod : Module) (base : String) : Option String :=
  let realBase := goTrimPrefixStr (goTrimSuffix base "/") "/"
  if goHasPrefixStr mod.ImportPath realBase then
    let path := goTrimSuffix (String.mk (mod.ImportPath.data.drop realBase.data.length)) "/"
    some (filepathJoin path "index.html")
  else
    none

/-- Modelled from the spec: the embedded asset site_index.html is not in
src/, so buildIndex's rendering backend is modelled as a total function
producing the index page text from the site URL, the body content, the
footer, and the map from module name to canonical relative URL. -/
def buildIndex (url : String) (content : String) (footer : String)
    (modules : List (String × String)) : String :=
  "<!doctype html><html><head><title>" ++ url ++ "</title></head><body>"
    ++ goJoin (modules.map (fun p => "<a href=\"" ++ p.2 ++ "\">" ++ p.1 ++ "</a>")) ""
    ++ content ++ "<footer>" ++ footer ++ "</footer></body></html>"

/-- Lookup in a Go map modelled as an association list. -/
def mapLookup (m : List (String × String)) (k : String) : Option String :=
  match m with
  | [] => none
  | (k', v) :: rest => if k' = k then some v else mapLookup rest k

/-- Insertion into a Go map modelled as an association list: overwrite the
existing entry or append a new one. -/
def mapInsert (m : List (String × String)) (k v : String) : List (String × String) :=
  if (mapLookup m k).isSome then m.map (fun p => if p.1 = k then (k, v) else p)
  else m ++ [(k, v)]

/-- The errors of BuildSite (site.go): the "failed to get module path",
"duplicate destination path" and "failed to render html" error returns. -/
inductive BuildError where
  | unplaceableModule (importPath : String)
  | duplicateDestination (dest : String)
  | renderFailure (importPath : String) (e : RenderError)
deriving DecidableEq, Repr

/-- The descriptor loop of BuildSite (site.go), carrying the accumulated
files and urls maps. -/
def buildSiteAux (url : String) (footerContent : String) :
    List Module → List (String × String) → List (String × String) →
    Except BuildError (List (String × String) × List (String × String))
  | [], files, urls => .ok (files, urls)
  | mod :: rest, files, urls =>
    match getModuleHTMLPath mod url with
    | none => .error (.unplaceableModule mod.ImportPath)
    | some dest =>
      let urls' := mapInsert urls mod.ImportPath (goTrimSuffix dest "index.html")
      if (mapLookup files dest).isSome then .error (.duplicateDestination dest)
      else
        match mod.RenderSite footerContent with
        | .error e => .error (.renderFailure mod.ImportPath e)
        | .ok html => buildSiteAux url footerContent rest (files ++ [(dest, html)]) urls'

/-- BuildSite (site.go): build the map of file path to html content for a
site containing the given modules, adding an index page when no module
already produced one. -/
def BuildSite (url : String) (indexContent : String) (footerContent : String)
    (modules : List Module) : Except BuildError (List (String × String)) :=
  match buildSiteAux url footerContent modules [] [] with
  | .error e => .error e
  | .ok (files, urls) =>
    if (mapLookup files "index.html").isSome then .ok files
    else .ok (files ++ [("index.html", buildIndex url indexContent footerContent urls)])

/-- GitForgeModule (forge.go): a new Module using templates for a common
git forge. -/
def GitForgeModule (ImportPath : String) (RepoURL : String) (ref : String) : Module :=
  let url := goTrimSuffix (goTrimSuffix RepoURL ".git") "/"
  { ImportPath := ImportPath
    VCSType := "git"
    RepoURL := url
    HomePage := url
    DirectoryLinkTemplate := url ++ "/tree/" ++ ref ++ "\x7b/dir\x7d"
    FileLinkTemplate := url ++ "/blob/" ++ ref ++ "\x7b/dir\x7d/\x7bfile\x7d#L\x7bline\x7d" }

example : getModuleHTMLPath ⟨"example.org/mod", "git", "https://example.org/mod", "", "", ""⟩
    "example.org" = some "/mod/index.html" := by rfl

example : getModuleHTMLPath ⟨"example.org", "git", "u", "", "", ""⟩ "example.org" =
    some "index.html" := by rfl

example : getModuleHTMLPath ⟨"other.org/x", "git", "u", "", "", ""⟩ "example.org" = none := by rfl

theorem string_data_append (s t : String) : (s ++ t).data = s.data ++ t.data := by
  cases s; cases t; rfl

theorem string_mk_data (s : String) : String.mk s.data = s := by
  cases s; rfl

theorem string_eq_iff_data (s t : String) : s = t ↔ s.data = t.data := by
  constructor
  · intro h; rw [h]
  · intro h; cases s; cases t; exact congrArg String.mk h

theorem string_append_eq_empty_iff (s t : String) : s ++ t = "" ↔ s = "" ∧ t = "" := by
  rw [string_eq_iff_data, string_data_append, string_eq_iff_data, string_eq_iff_data]
  simp

theorem containsSpace_eq_false_iff (s : String) :
    containsSpace s = false ↔ ∀ c ∈ s.data, goIsSpace c = false := by
  simp [containsSpace, List.any_eq_false]

theorem space_not_mem_of_not_containsSpace {s : String} (h : ¬ containsSpace s) :
    ' ' ∉ s.data := by
  intro hmem
  rw [Bool.not_eq_true, containsSpace_eq_false_iff] at h
  have := h ' ' hmem
  simp [goIsSpace] at this

/-- C9: for all strings, GitForgeModule returns the module whose RepoURL and
HomePage are the repository URL with one trailing ".git" and then one
trailing "/" trimmed, whose VCSType is "git", whose ImportPath is the
given import path, and whose two link templates append the forge tree/blob
routes with the placeholder suffixes to the trimmed URL. -/
theorem gitForgeModule_fields (ImportPath RepoURL ref : String) :
    (GitForgeModule ImportPath RepoURL ref).ImportPath = ImportPath
  ∧ (GitForgeModule ImportPath RepoURL ref).VCSType = "git"
  ∧ (GitForgeModule ImportPath RepoURL ref).RepoURL =
      goTrimSuffix (goTrimSuffix RepoURL ".git") "/"
  ∧ (GitForgeModule ImportPath RepoURL ref).HomePage =
      goTrimSuffix (goTrimSuffix RepoURL ".git") "/"
  ∧ (GitForgeModule ImportPath RepoURL ref).DirectoryLinkTemplate =
      goTrimSuffix (goTrimSuffix RepoURL ".git") "/" ++ "/tree/" ++ ref ++ "\x7b/dir\x7d"
  ∧ (GitForgeModule ImportPath RepoURL ref).FileLinkTemplate =
      goTrimSuffix (goTrimSuffix RepoURL ".git") "/" ++ "/blob/" ++ ref
        ++ "\x7b/dir\x7d/\x7bfile\x7d#L\x7bline\x7d" :=
  ⟨rfl, rfl, rfl, rfl, rfl, rfl⟩

example : (GitForgeModule "a" "https://x.y/r.git" "main").RepoURL = "https://x.y/r" := by rfl

example : (GitForgeModule "a" "https://x.y/r/" "main").DirectoryLinkTemplate =
    "https://x.y/r/tree/main\x7b/dir\x7d" := by rfl

/-- C10: SourceCodeURL is empty exactly when the directory link template is
empty, and is otherwise exactly HomePageURL, which is the home page when
set and not the underscore sentinel, else the pkg.go.dev documentation URL;
no placeholder expansion of the link templates is involved. -/
theorem sourceCodeURL_spec (mod : Module) :
    (mod.SourceCodeURL = "" ↔ mod.DirectoryLinkTemplate = "")
  ∧ mod.SourceCodeURL = (if mod.DirectoryLinkTemplate = "" then "" else mod.HomePageURL)
  ∧ mod.HomePageURL =
      (if mod.HomePage ≠ "" ∧ mod.HomePage ≠ "_" then mod.HomePage
       else "https://pkg.go.dev/" ++ mod.ImportPath) := by
  refine ⟨?_, ?_, rfl⟩
  · unfold Module.SourceCodeURL
    by_cases hdt : mod.DirectoryLinkTemplate = ""
    · simp [hdt]
    · rw [if_neg hdt]
      refine iff_of_false ?_ hdt
      by_cases hhp : mod.HomePage ≠ "" ∧ mod.HomePage ≠ "_"
      · rw [if_pos hhp]
        exact hhp.1
      · rw [if_neg hhp]
        intro h
        rw [string_append_eq_empty_iff] at h
        exact absurd h.1 (by decide)
  · by_cases hdt : mod.DirectoryLinkTemplate = ""
    · simp [Module.SourceCodeURL, Module.HomePageURL, hdt]
    · simp [Module.SourceCodeURL, Module.HomePageURL, hdt]

/-- C4: ValidateGoImport succeeds exactly when the import path is non-empty
and whitespace-free, the VCS type is in the whitelist, and the repository
URL is non-empty and whitespace-free; the home page and the two link
template fields never affect the result; and each failure is reported as
the distinct typed reason of the first failing constraint, in the order
module name, VCS, repository URL. -/
theorem validateGoImport_spec (mod : Module) :
    (mod.ValidateGoImport = none ↔
      (¬(mod.ImportPath = "" ∨ containsSpace mod.ImportPath) ∧ mod.VCSType ∈ supportedVCS ∧
        ¬(mod.RepoURL = "" ∨ containsSpace mod.RepoURL)))
  ∧ (∀ h dt ft,
      Module.ValidateGoImport
        { mod with HomePage := h, DirectoryLinkTemplate := dt, FileLinkTemplate := ft } =
        mod.ValidateGoImport)
  ∧ (mod.ValidateGoImport = some .invalidModuleName ↔
      (mod.ImportPath = "" ∨ containsSpace mod.ImportPath))
  ∧ (mod.ValidateGoImport = some .unsupportedVCS ↔
      (¬(mod.ImportPath = "" ∨ containsSpace mod.ImportPath) ∧ mod.VCSType ∉ supportedVCS))
  ∧ (mod.ValidateGoImport = some .invalidRepoURL ↔
      (¬(mod.ImportPath = "" ∨ containsSpace mod.ImportPath) ∧ mod.VCSType ∈ supportedVCS ∧
        (mod.RepoURL = "" ∨ containsSpace mod.RepoURL))) := by
  unfold Module.ValidateGoImport
  by_cases h1 : mod.ImportPath = "" ∨ containsSpace mod.ImportPath <;>
    by_cases h2 : mod.VCSType ∉ supportedVCS <;>
      by_cases h3 : mod.RepoURL = "" ∨ containsSpace mod.RepoURL <;>
        simp_all

theorem goImport_eq_join (mod : Module) (h : mod.ValidateGoImport = none) :
    mod.GoImport = mod.ImportPath ++ " " ++ mod.VCSType ++ " " ++ mod.RepoURL := by
  unfold Module.GoImport
  rw [h]
  rfl

theorem goImport_empty_iff (mod : Module) : mod.GoImport = "" ↔ mod.ValidateGoImport ≠ none := by
  cases h : mod.ValidateGoImport with
  | some e => simp [Module.GoImport, h]
  | none =>
    rw [goImport_eq_join mod h]
    simp only [h, ne_eq, not_true_eq_false, iff_false]
    intro hemp
    have h2 := ((string_append_eq_empty_iff _ _).mp hemp).1
    have h3 := ((string_append_eq_empty_iff _ _).mp h2).2
    exact absurd h3 (by decide)

theorem hp_subst_space_false (mod : Module)
    (h2 : ¬(mod.HomePage ≠ "" ∧ containsSpace mod.HomePage)) :
    containsSpace (if mod.HomePage = "" then "_" else mod.HomePage) = false := by
  by_cases hh : mod.HomePage = ""
  · rw [if_pos hh]
    decide
  · rw [if_neg hh]
    rcases Bool.eq_false_or_eq_true (containsSpace mod.HomePage) with hs | hs
    · exact absurd ⟨hh, hs⟩ h2
    · exact hs

theorem goSource_eq_join (mod : Module) (h : mod.ValidateGoSource = none) :
    mod.GoSource = mod.ImportPath ++ " " ++ (if mod.HomePage = "" then "_" else mod.HomePage)
      ++ " " ++ mod.DirectoryLinkTemplate ++ " " ++ mod.FileLinkTemplate := by
  unfold Module.ValidateGoSource at h
  unfold Module.GoSource
  by_cases h1 : mod.ImportPath = "" ∨ containsSpace mod.ImportPath
  · simp [h1] at h
  by_cases h2 : mod.HomePage ≠ "" ∧ containsSpace mod.HomePage
  · simp [h1, h2] at h
  by_cases h3 : mod.DirectoryLinkTemplate = "" ∨ containsSpace mod.DirectoryLinkTemplate
  · simp [h1, h2, h3] at h
  by_cases h4 : mod.FileLinkTemplate = "" ∨ containsSpace mod.FileLinkTemplate
  · simp [h1, h2, h3, h4] at h
  simp [h1, h3, h4, hp_subst_space_false mod h2]

theorem goSource_empty_iff (mod : Module) : mod.GoSource = "" ↔ mod.ValidateGoSource ≠ none := by
  cases h : mod.ValidateGoSource with
  | some e =>
    simp only [ne_eq, reduceCtorEq, not_false_eq_true, iff_true]
    unfold Module.ValidateGoSource at h
    unfold Module.GoSource
    by_cases h1 : mod.ImportPath = "" ∨ containsSpace mod.ImportPath
    · simp [h1]
    by_cases h2 : mod.HomePage ≠ "" ∧ containsSpace mod.HomePage
    · have hhp : containsSpace (if mod.HomePage = "" then "_" else mod.HomePage) = true := by
        rw [if_neg h2.1]
        exact h2.2
      simp [h1, hhp]
    by_cases h3 : mod.DirectoryLinkTemplate = "" ∨ containsSpace mod.DirectoryLinkTemplate
    · simp [h1, hp_subst_space_false mod h2, h3]
    by_cases h4 : mod.FileLinkTemplate = "" ∨ containsSpace mod.FileLinkTemplate
    · simp [h1, hp_subst_space_false mod h2, h3, h4]
    · simp [h1, h2, h3, h4] at h
  | none =>
    rw [goSource_eq_join mod h]
    simp only [h, ne_eq, not_true_eq_false, iff_false]
    intro hemp
    have h2 := ((string_append_eq_empty_iff _ _).mp hemp).1
    have h3 := ((string_append_eq_empty_iff _ _).mp h2).2
    exact absurd h3 (by decide)

/-- C7: the non-throwing fast paths agree exactly with the typed-error
validation forms: GoImport returns the empty string exactly when
ValidateGoImport fails, and GoSource returns the empty string exactly when
ValidateGoSource fails. -/
theorem tag_empty_iff_invalid (mod : Module) :
    (mod.GoImport = "" ↔ mod.ValidateGoImport ≠ none)
  ∧ (mod.GoSource = "" ↔ mod.ValidateGoSource ≠ none) :=
  ⟨goImport_empty_iff mod, goSource_empty_iff mod⟩

theorem splitOnChar_of_not_mem (c : Char) (l : List Char) (h : c ∉ l) :
    splitOnChar c l = [l] := by
  induction l with
  | nil => rfl
  | cons x xs ih =>
    have hx : ¬(x = c) := fun he => h (he ▸ List.mem_cons_self x xs)
    have hxs : c ∉ xs := fun hm => h (List.mem_cons_of_mem _ hm)
    unfold splitOnChar
    rw [if_neg hx, ih hxs]

theorem splitOnChar_append_cons (c : Char) (a rest : List Char) (h : c ∉ a) :
    splitOnChar c (a ++ c :: rest) = a :: splitOnChar c rest := by
  induction a with
  | nil => simp [splitOnChar]
  | cons x xs ih =>
    have hx : ¬(x = c) := fun he => h (he ▸ List.mem_cons_self x xs)
    have hxs : c ∉ xs := fun hm => h (List.mem_cons_of_mem _ hm)
    have ih' := ih hxs
    show splitOnChar c (x :: (xs ++ c :: rest)) = (x :: xs) :: splitOnChar c rest
    rw [splitOnChar, if_neg hx, ih']

theorem mem_supportedVCS_space_free {v : String} (h : v ∈ supportedVCS) :
    ' ' ∉ v.data := by
  simp only [supportedVCS, List.mem_cons, List.not_mem_nil, or_false] at h
  rcases h with rfl | rfl | rfl | rfl | rfl <;> decide

/-- C5: for every module accepted by ValidateGoImport, GoImport is the
three fields joined by exactly one space each, and splitting the result on
single spaces yields exactly the list of the three fields. -/
theorem goImport_round_trip (mod : Module) (h : mod.ValidateGoImport = none) :
    mod.GoImport = mod.ImportPath ++ " " ++ mod.VCSType ++ " " ++ mod.RepoURL
  ∧ goSplitSpace mod.GoImport = [mod.ImportPath, mod.VCSType, mod.RepoURL] := by
  have hj := goImport_eq_join mod h
  refine ⟨hj, ?_⟩
  unfold Module.ValidateGoImport at h
  by_cases h1 : mod.ImportPath = "" ∨ containsSpace mod.ImportPath
  · simp [h1] at h
  by_cases h2 : mod.VCSType ∉ supportedVCS
  · simp [h1, h2] at h
  by_cases h3 : mod.RepoURL = "" ∨ containsSpace mod.RepoURL
  · simp [h1, h2, h3] at h
  have hP : ' ' ∉ mod.ImportPath.data :=
    space_not_mem_of_not_containsSpace (fun hc => h1 (Or.inr hc))
  have hR : ' ' ∉ mod.RepoURL.data :=
    space_not_mem_of_not_containsSpace (fun hc => h3 (Or.inr hc))
  have hV : ' ' ∉ mod.VCSType.data := mem_supportedVCS_space_free (not_not.mp h2)
  have hsp : (" " : String).data = [' '] := rfl
  have hdata : (mod.GoImport).data =
      mod.ImportPath.data ++ ' ' :: (mod.VCSType.data ++ ' ' :: mod.RepoURL.data) := by
    rw [hj, string_data_append, string_data_append, string_data_append, string_data_append, hsp]
    simp
  unfold goSplitSpace
  rw [hdata, splitOnChar_append_cons _ _ _ hP, splitOnChar_append_cons _ _ _ hV,
    splitOnChar_of_not_mem _ _ hR]
  simp [string_mk_data]

/-- C5 witness: the round trip at a concrete valid module. -/
theorem goImport_round_trip_witness :
    Module.GoImport ⟨"example.org/mod", "git", "https://example.org/mod", "", "", ""⟩ =
      "example.org/mod git https://example.org/mod"
  ∧ goSplitSpace
        (Module.GoImport ⟨"example.org/mod", "git", "https://example.org/mod", "", "", ""⟩) =
      ["example.org/mod", "git", "https://example.org/mod"] :=
  goImport_round_trip ⟨"example.org/mod", "git", "https://example.org/mod", "", "", ""⟩
    (by decide)

/-- C6: for every module accepted by ValidateGoSource, GoSource is the four
fields joined by single spaces with the empty home page replaced by the
underscore sentinel; in particular with an empty home page the second
space-delimited field is exactly the underscore. -/
theorem goSource_round_trip (mod : Module) (h : mod.ValidateGoSource = none) :
    mod.GoSource = mod.ImportPath ++ " " ++ (if mod.HomePage = "" then "_" else mod.HomePage)
      ++ " " ++ mod.DirectoryLinkTemplate ++ " " ++ mod.FileLinkTemplate
  ∧ goSplitSpace mod.GoSource =
      [mod.ImportPath, (if mod.HomePage = "" then "_" else mod.HomePage),
        mod.DirectoryLinkTemplate, mod.FileLinkTemplate]
  ∧ (mod.HomePage = "" → (goSplitSpace mod.GoSource)[1]? = some "_") := by
  have hj := goSource_eq_join mod h
  have hsplit : goSplitSpace mod.GoSource =
      [mod.ImportPath, (if mod.HomePage = "" then "_" else mod.HomePage),
        mod.DirectoryLinkTemplate, mod.FileLinkTemplate] := by
    unfold Module.ValidateGoSource at h
    by_cases h1 : mod.ImportPath = "" ∨ containsSpace mod.ImportPath
    · simp [h1] at h
    by_cases h2 : mod.HomePage ≠ "" ∧ containsSpace mod.HomePage
    · simp [h1, h2] at h
    by_cases h3 : mod.DirectoryLinkTemplate = "" ∨ containsSpace mod.DirectoryLinkTemplate
    · simp [h1, h2, h3] at h
    by_cases h4 : mod.FileLinkTemplate = "" ∨ containsSpace mod.FileLinkTemplate
    · simp [h1, h2, h3, h4] at h
    have hP : ' ' ∉ mod.ImportPath.data :=
      space_not_mem_of_not_containsSpace (fun hc => h1 (Or.inr hc))
    have hH : ' ' ∉ (if mod.HomePage = "" then "_" else mod.HomePage).data := by
      apply space_not_mem_of_not_containsSpace
      rw [hp_subst_space_false mod h2]
      simp
    have hD : ' ' ∉ mod.DirectoryLinkTemplate.data :=
      space_not_mem_of_not_containsSpace (fun hc => h3 (Or.inr hc))
    have hF : ' ' ∉ mod.FileLinkTemplate.data :=
      space_not_mem_of_not_containsSpace (fun hc => h4 (Or.inr hc))
    have hsp : (" " : String).data = [' '] := rfl
    have hdata : (mod.GoSource).data =
        mod.ImportPath.data ++ ' ' :: ((if mod.HomePage = "" then "_" else mod.HomePage).data
          ++ ' ' :: (mod.DirectoryLinkTemplate.data ++ ' ' :: mod.FileLinkTemplate.data)) := by
      rw [hj, string_data_append, string_data_append, string_data_append, string_data_append,
        string_data_append, string_data_append, hsp]
      simp
    unfold goSplitSpace
    rw [hdata, splitOnChar_append_cons _ _ _ hP, splitOnChar_append_cons _ _ _ hH,
      splitOnChar_append_cons _ _ _ hD, splitOnChar_of_not_mem _ _ hF]
    simp [string_mk_data]
  refine ⟨hj, hsplit, ?_⟩
  intro hh
  rw [hsplit]
  simp [hh]

/-- C6 witness: the underscore substitution at a concrete valid module with
an empty home page. -/
theorem goSource_round_trip_witness :
    Module.GoSource ⟨"a", "git", "u", "", "d", "f"⟩ = "a _ d f"
  ∧ (goSplitSpace (Module.GoSource ⟨"a", "git", "u", "", "d", "f"⟩))[1]? = some "_" := by
  have h := goSource_round_trip ⟨"a", "git", "u", "", "d", "f"⟩ (by decide)
  exact ⟨h.1, h.2.2 rfl⟩

/-- C8: RenderSite fails, with a result independent of the rendering
backend, exactly when ValidateGoImport fails; with a valid go-import the
page is rendered even when the go-source tag is unproducible, in which
case GoSourceTag is simply the empty string, never an error. -/
theorem renderSite_spec (mod : Module) (footer : String) :
    ((mod.ValidateGoImport).isSome →
      (∃ e, mod.RenderSite footer = .error e)
      ∧ ∀ backend, RenderSiteWith backend mod footer = mod.RenderSite footer)
  ∧ (mod.ValidateGoImport = none → mod.RenderSite footer = .ok (renderModuleHTML mod footer))
  ∧ ((mod.ValidateGoSource).isSome → mod.GoSourceTag = "") := by
  refine ⟨?_, ?_, ?_⟩
  · intro hsome
    cases h : mod.ValidateGoImport with
    | none => rw [h] at hsome; simp at hsome
    | some e =>
      constructor
      · exact ⟨.invalidGoImport e, by simp [Module.RenderSite, RenderSiteWith, h]⟩
      · intro backend
        simp [Module.RenderSite, RenderSiteWith, h]
  · intro h
    simp [Module.RenderSite, RenderSiteWith, h]
  · intro hsome
    have hne : mod.ValidateGoSource ≠ none := by
      intro hn
      rw [hn] at hsome
      simp at hsome
    have h0 : mod.GoSource = "" := (goSource_empty_iff mod).mpr hne
    simp [Module.GoSourceTag, h0]

/-- C8 witness: a module with an invalid import path is rejected, and a
module with a valid go-import but no directory link template renders with
an empty go-source tag. -/
theorem renderSite_spec_witness :
    (∃ e, Module.RenderSite ⟨"bad path", "git", "u", "", "", ""⟩ "f" = .error e)
  ∧ Module.RenderSite ⟨"a", "git", "u", "", "", ""⟩ "f" =
      .ok (renderModuleHTML ⟨"a", "git", "u", "", "", ""⟩ "f")
  ∧ Module.GoSourceTag ⟨"a", "git", "u", "", "", ""⟩ = "" :=
  ⟨((renderSite_spec ⟨"bad path", "git", "u", "", "", ""⟩ "f").1 (by decide)).1,
    (renderSite_spec ⟨"a", "git", "u", "", "", ""⟩ "f").2.1 (by decide),
    (renderSite_spec ⟨"a", "git", "u", "", "", ""⟩ "f").2.2 (by decide)⟩

/-- The output paths of the placeable modules of a list, in input order. -/
def modulePaths (url : String) (mods : List Module) : List String :=
  mods.filterMap (fun m => getModuleHTMLPath m url)

/-- Every module of the list is placeable under the base and passes the
go-import validation (the two per-module success conditions of BuildSite). -/
def placeableValid (url : String) (mods : List Module) : Prop :=
  ∀ mod ∈ mods, (getModuleHTMLPath mod url).isSome = true ∧ mod.ValidateGoImport = none

instance (url : String) (mods : List Module) : Decidable (placeableValid url mods) :=
  List.decidableBAll _ mods

theorem modulePaths_nil (url : String) : modulePaths url [] = [] := rfl

theorem modulePaths_cons_none {url : String} {mod : Module}
    (hp : getModuleHTMLPath mod url = none) (rest : List Module) :
    modulePaths url (mod :: rest) = modulePaths url rest := by
  simp [modulePaths, List.filterMap_cons, hp]

theorem modulePaths_cons_some {url : String} {mod : Module} {dest : String}
    (hp : getModuleHTMLPath mod url = some dest) (rest : List Module) :
    modulePaths url (mod :: rest) = dest :: modulePaths url rest := by
  simp [modulePaths, List.filterMap_cons, hp]

theorem mapLookup_append_eq_none_iff (m : List (String × String)) (k0 v0 k : String) :
    mapLookup (m ++ [(k0, v0)]) k = none ↔ (mapLookup m k = none ∧ ¬(k0 = k)) := by
  induction m with
  | nil =>
    by_cases hk : k0 = k <;> simp [mapLookup, hk]
  | cons p rest ih =>
    obtain ⟨a, b⟩ := p
    by_cases ha : a = k <;> simp [mapLookup, ha, ih]

theorem mapLookup_append_of_isSome {m : List (String × String)} {k : String}
    (h : (mapLookup m k).isSome = true) (k0 v0 : String) :
    mapLookup (m ++ [(k0, v0)]) k = mapLookup m k := by
  induction m with
  | nil => simp [mapLookup] at h
  | cons p rest ih =>
    obtain ⟨a, b⟩ := p
    by_cases ha : a = k
    · simp [mapLookup, ha]
    · simp [mapLookup, ha] at h ⊢
      exact ih h

theorem mapLookup_append_self {m : List (String × String)} {k0 : String}
    (h : mapLookup m k0 = none) (v0 : String) :
    mapLookup (m ++ [(k0, v0)]) k0 = some v0 := by
  induction m with
  | nil => simp [mapLookup]
  | cons p rest ih =>
    obtain ⟨a, b⟩ := p
    by_cases ha : a = k0
    · simp [mapLookup, ha] at h
    · simp only [List.cons_append]
      simp [mapLookup, ha] at h ⊢
      exact ih h

theorem mapLookup_eq_none_iff (m : List (String × String)) (k : String) :
    mapLookup m k = none ↔ k ∉ m.map Prod.fst := by
  induction m with
  | nil => simp [mapLookup]
  | cons p rest ih =>
    obtain ⟨a, b⟩ := p
    by_cases ha : a = k
    · simp [mapLookup, ha]
    · have hka : ¬(k = a) := fun he => ha he.symm
      simp [mapLookup, ha, ih, hka]

theorem buildSiteAux_cons_unplaceable {url f : String} {mod : Module}
    {files urls : List (String × String)}
    (hp : getModuleHTMLPath mod url = none) (rest : List Module) :
    buildSiteAux url f (mod :: rest) files urls = .error (.unplaceableModule mod.ImportPath) := by
  simp [buildSiteAux, hp]

theorem buildSiteAux_cons_dup {url f : String} {mod : Module} {dest : String}
    {files urls : List (String × String)}
    (hp : getModuleHTMLPath mod url = some dest)
    (hl : (mapLookup files dest).isSome = true) (rest : List Module) :
    buildSiteAux url f (mod :: rest) files urls = .error (.duplicateDestination dest) := by
  simp [buildSiteAux, hp, hl]

theorem buildSiteAux_cons_invalid {url f : String} {mod : Module} {dest : String}
    {e : ValidationError} {files urls : List (String × String)}
    (hp : getModuleHTMLPath mod url = some dest)
    (hl : (mapLookup files dest).isSome = false)
    (hv : mod.ValidateGoImport = some e) (rest : List Module) :
    buildSiteAux url f (mod :: rest) files urls =
      .error (.renderFailure mod.ImportPath (.invalidGoImport e)) := by
  have hr : mod.RenderSite f = .error (.invalidGoImport e) := by
    simp [Module.RenderSite, RenderSiteWith, hv]
  simp [buildSiteAux, hp, hl, hr]

theorem buildSiteAux_cons_step {url f : String} {mod : Module} {dest : String}
    {files urls : List (String × String)}
    (hp : getModuleHTMLPath mod url = some dest)
    (hl : (mapLookup files dest).isSome = false)
    (hv : mod.ValidateGoImport = none) (rest : List Module) :
    buildSiteAux url f (mod :: rest) files urls =
      buildSiteAux url f rest (files ++ [(dest, renderModuleHTML mod f)])
        (mapInsert urls mod.ImportPath (goTrimSuffix dest "index.html")) := by
  have hr : mod.RenderSite f = .ok (renderModuleHTML mod f) := by
    simp [Module.RenderSite, RenderSiteWith, hv]
  simp [buildSiteAux, hp, hl, hr]

theorem isSome_false_eq_none {α : Type} {o : Option α} (h : o.isSome = false) : o = none := by
  cases o with
  | none => rfl
  | some v => simp at h

/-- The successfully rendered pages of a module list, in input order. -/
def renderedPages (url f : String) (mods : List Module) : List (String × String) :=
  mods.filterMap (fun m => (getModuleHTMLPath m url).map (fun dst => (dst, renderModuleHTML m f)))

theorem renderedPages_cons_none {url f : String} {mod : Module}
    (hp : getModuleHTMLPath mod url = none) (rest : List Module) :
    renderedPages url f (mod :: rest) = renderedPages url f rest := by
  simp [renderedPages, List.filterMap_cons, hp]

theorem renderedPages_cons_some {url f : String} {mod : Module} {dest : String}
    (hp : getModuleHTMLPath mod url = some dest) (rest : List Module) :
    renderedPages url f (mod :: rest) =
      (dest, renderModuleHTML mod f) :: renderedPages url f rest := by
  simp [renderedPages, List.filterMap_cons, hp]

theorem renderedPages_map_fst (url f : String) (mods : List Module) :
    (renderedPages url f mods).map Prod.fst = modulePaths url mods := by
  induction mods with
  | nil => rfl
  | cons mod rest ih =>
    cases hp : getModuleHTMLPath mod url with
    | none => rw [renderedPages_cons_none hp, modulePaths_cons_none hp, ih]
    | some dest =>
      rw [renderedPages_cons_some hp, modulePaths_cons_some hp, List.map_cons, ih]

theorem modulePaths_length (url : String) (mods : List Module) (h : placeableValid url mods) :
    (modulePaths url mods).length = mods.length := by
  induction mods with
  | nil => rfl
  | cons mod rest ih =>
    obtain ⟨hps, -⟩ := h mod (List.mem_cons_self mod rest)
    obtain ⟨dst, hdst⟩ := Option.isSome_iff_exists.mp hps
    rw [modulePaths_cons_some hdst]
    simp [ih (fun q hq => h q (List.mem_cons_of_mem _ hq))]

theorem buildSiteAux_ok_iff (url f : String) (mods : List Module) :
    ∀ files urls,
      (∃ r, buildSiteAux url f mods files urls = .ok r) ↔
        (placeableValid url mods ∧ (modulePaths url mods).Nodup ∧
          ∀ d ∈ modulePaths url mods, mapLookup files d = none) := by
  induction mods with
  | nil =>
    intro files urls
    constructor
    · intro _
      refine ⟨fun m hm => absurd hm (List.not_mem_nil m), ?_, ?_⟩
      · rw [modulePaths_nil]
        exact List.nodup_nil
      · rw [modulePaths_nil]
        intro d hd
        exact absurd hd (List.not_mem_nil d)
    · intro _
      exact ⟨(files, urls), rfl⟩
  | cons mod rest ih =>
    intro files urls
    cases hp : getModuleHTMLPath mod url with
    | none =>
      apply iff_of_false
      · rintro ⟨r, hr⟩
        rw [buildSiteAux_cons_unplaceable hp] at hr
        exact absurd hr (by simp)
      · rintro ⟨hpv, -, -⟩
        have h1 := (hpv mod (List.mem_cons_self mod rest)).1
        rw [hp] at h1
        simp at h1
    | some dest =>
      have hmp := modulePaths_cons_some hp rest
      rcases Bool.eq_false_or_eq_true ((mapLookup files dest).isSome) with hl | hl
      · apply iff_of_false
        · rintro ⟨r, hr⟩
          rw [buildSiteAux_cons_dup hp hl rest] at hr
          exact absurd hr (by simp)
        · rintro ⟨-, -, hall⟩
          rw [hmp] at hall
          have hx := hall dest (List.mem_cons_self dest _)
          rw [hx] at hl
          simp at hl
      · cases hv : mod.ValidateGoImport with
        | some e =>
          apply iff_of_false
          · rintro ⟨r, hr⟩
            rw [buildSiteAux_cons_invalid hp hl hv rest] at hr
            exact absurd hr (by simp)
          · rintro ⟨hpv, -, -⟩
            have h2 := (hpv mod (List.mem_cons_self mod rest)).2
            rw [hv] at h2
            exact absurd h2 (by simp)
        | none =>
          have hstep := @buildSiteAux_cons_step url f mod dest files urls hp hl hv rest
          constructor
          · rintro ⟨r, hr⟩
            rw [hstep] at hr
            obtain ⟨hpvr, hnd, hall⟩ := (ih _ _).mp ⟨r, hr⟩
            refine ⟨?_, ?_, ?_⟩
            · intro m hm
              rcases List.mem_cons.mp hm with h | h
              · subst h
                exact ⟨by rw [hp]; rfl, hv⟩
              · exact hpvr m h
            · rw [hmp]
              refine List.nodup_cons.mpr ⟨?_, hnd⟩
              intro hdm
              exact ((mapLookup_append_eq_none_iff files dest (renderModuleHTML mod f)
                dest).mp (hall dest hdm)).2 rfl
            · rw [hmp]
              intro d hd
              rcases List.mem_cons.mp hd with h | h
              · subst h
                exact isSome_false_eq_none hl
              · exact ((mapLookup_append_eq_none_iff files dest _ d).mp (hall d h)).1
          · rintro ⟨hpv, hnd, hall⟩
            rw [hmp] at hnd hall
            have hnd' := List.nodup_cons.mp hnd
            have hall2 : ∀ d ∈ modulePaths url rest,
                mapLookup (files ++ [(dest, renderModuleHTML mod f)]) d = none := by
              intro d hd
              exact (mapLookup_append_eq_none_iff _ _ _ _).mpr
                ⟨hall d (List.mem_cons_of_mem _ hd), fun he => hnd'.1 (by rw [he]; exact hd)⟩
            obtain ⟨r, hr⟩ := (ih (files ++ [(dest, renderModuleHTML mod f)])
                (mapInsert urls mod.ImportPath (goTrimSuffix dest "index.html"))).mpr
              ⟨fun m hm => hpv m (List.mem_cons_of_mem _ hm), hnd'.2, hall2⟩
            exact ⟨r, by rw [hstep]; exact hr⟩

theorem buildSiteAux_ok_files (url f : String) (mods : List Module) :
    ∀ files urls files' urls',
      buildSiteAux url f mods files urls = .ok (files', urls') →
      files' = files ++ renderedPages url f mods := by
  induction mods with
  | nil =>
    intro files urls files' urls' h
    simp [buildSiteAux] at h
    simp [renderedPages, h.1]
  | cons mod rest ih =>
    intro files urls files' urls' h
    cases hp : getModuleHTMLPath mod url with
    | none =>
      rw [buildSiteAux_cons_unplaceable hp] at h
      exact absurd h (by simp)
    | some dest =>
      rcases Bool.eq_false_or_eq_true ((mapLookup files dest).isSome) with hl | hl
      · rw [buildSiteAux_cons_dup hp hl rest] at h
        exact absurd h (by simp)
      · cases hv : mod.ValidateGoImport with
        | some e =>
          rw [buildSiteAux_cons_invalid hp hl hv rest] at h
          exact absurd h (by simp)
        | none =>
          rw [buildSiteAux_cons_step hp hl hv rest] at h
          rw [ih _ _ _ _ h, renderedPages_cons_some hp rest]
          simp

theorem buildSiteAux_err_unplaceable (url f : String) (m : Module) (rest : List Module)
    (hp2 : getModuleHTMLPath m url = none) :
    ∀ (pre : List Module) (files urls : List (String × String)),
      placeableValid url pre → (modulePaths url pre).Nodup →
      (∀ d ∈ modulePaths url pre, mapLookup files d = none) →
      buildSiteAux url f (pre ++ m :: rest) files urls =
        .error (.unplaceableModule m.ImportPath) := by
  intro pre
  induction pre with
  | nil =>
    intro files urls _ _ _
    exact buildSiteAux_cons_unplaceable hp2 rest
  | cons p pre2 ih =>
    intro files urls hpv hnd hall
    obtain ⟨hps, hvv⟩ := hpv p (List.mem_cons_self p pre2)
    obtain ⟨dp, hdp⟩ := Option.isSome_iff_exists.mp hps
    have hmp := modulePaths_cons_some hdp pre2
    rw [hmp] at hnd hall
    have hnd2 := List.nodup_cons.mp hnd
    have hlp : (mapLookup files dp).isSome = false := by
      rw [hall dp (List.mem_cons_self dp _)]
      rfl
    show buildSiteAux url f (p :: (pre2 ++ m :: rest)) files urls = _
    rw [buildSiteAux_cons_step hdp hlp hvv]
    apply ih
    · exact fun q hq => hpv q (List.mem_cons_of_mem _ hq)
    · exact hnd2.2
    · intro d hd
      exact (mapLookup_append_eq_none_iff _ _ _ _).mpr
        ⟨hall d (List.mem_cons_of_mem _ hd), fun he => hnd2.1 (by rw [he]; exact hd)⟩

theorem buildSiteAux_err_dup (url f : String) (m : Module) (rest : List Module) (d : String)
    (hpm : getModuleHTMLPath m url = some d) :
    ∀ (pre : List Module) (files urls : List (String × String)),
      placeableValid url pre → (modulePaths url pre).Nodup →
      (∀ d2 ∈ modulePaths url pre, mapLookup files d2 = none) →
      (d ∈ modulePaths url pre ∨ (mapLookup files d).isSome = true) →
      buildSiteAux url f (pre ++ m :: rest) files urls =
        .error (.duplicateDestination d) := by
  intro pre
  induction pre with
  | nil =>
    intro files urls _ _ _ hmem
    rcases hmem with h | h
    · rw [modulePaths_nil] at h
      exact absurd h (List.not_mem_nil d)
    · exact buildSiteAux_cons_dup hpm h rest
  | cons p pre2 ih =>
    intro files urls hpv hnd hall hmem
    obtain ⟨hps, hvv⟩ := hpv p (List.mem_cons_self p pre2)
    obtain ⟨dp, hdp⟩ := Option.isSome_iff_exists.mp hps
    have hmp := modulePaths_cons_some hdp pre2
    rw [hmp] at hnd hall hmem
    have hnd2 := List.nodup_cons.mp hnd
    have hlpn : mapLookup files dp = none := hall dp (List.mem_cons_self dp _)
    have hlp : (mapLookup files dp).isSome = false := by rw [hlpn]; rfl
    show buildSiteAux url f (p :: (pre2 ++ m :: rest)) files urls = _
    rw [buildSiteAux_cons_step hdp hlp hvv]
    apply ih
    · exact fun q hq => hpv q (List.mem_cons_of_mem _ hq)
    · exact hnd2.2
    · intro d2 hd2
      exact (mapLookup_append_eq_none_iff _ _ _ _).mpr
        ⟨hall d2 (List.mem_cons_of_mem _ hd2), fun he => hnd2.1 (by rw [he]; exact hd2)⟩
    · rcases hmem with hm | hm
      · rcases List.mem_cons.mp hm with he | hm2
        · right
          rw [he, mapLookup_append_self hlpn]
          rfl
        · left
          exact hm2
      · right
        rw [mapLookup_append_of_isSome hm]
        exact hm

theorem buildSite_ok_iff (url i f : String) (mods : List Module) :
    (∃ m, BuildSite url i f mods = .ok m) ↔
      (placeableValid url mods ∧ (modulePaths url mods).Nodup) := by
  constructor
  · rintro ⟨m, hm⟩
    unfold BuildSite at hm
    cases haux : buildSiteAux url f mods [] [] with
    | error e =>
      rw [haux] at hm
      exact absurd hm (by simp)
    | ok r =>
      have h := (buildSiteAux_ok_iff url f mods [] []).mp ⟨r, haux⟩
      exact ⟨h.1, h.2.1⟩
  · rintro ⟨h1, h2⟩
    have h3 : ∀ d ∈ modulePaths url mods, mapLookup ([] : List (String × String)) d = none :=
      fun d _ => rfl
    obtain ⟨⟨files, urls⟩, hr⟩ := (buildSiteAux_ok_iff url f mods [] []).mpr ⟨h1, h2, h3⟩
    unfold BuildSite
    rw [hr]
    rcases Bool.eq_false_or_eq_true ((mapLookup files "index.html").isSome) with hidx | hidx
    · exact ⟨files, by simp [hidx]⟩
    · exact ⟨files ++ [("index.html", buildIndex url i f urls)], by simp [hidx]⟩

theorem buildSite_ok_keys (url i f : String) (mods : List Module) (m : List (String × String))
    (hm : BuildSite url i f mods = .ok m) :
    m.map Prod.fst = modulePaths url mods ++
      (if "index.html" ∈ modulePaths url mods then [] else ["index.html"]) := by
  unfold BuildSite at hm
  cases haux : buildSiteAux url f mods [] [] with
  | error e =>
    rw [haux] at hm
    exact absurd hm (by simp)
  | ok r =>
    obtain ⟨files, urls⟩ := r
    rw [haux] at hm
    have hfiles : files = renderedPages url f mods := by
      have h := buildSiteAux_ok_files url f mods [] [] files urls haux
      simpa using h
    have hkeys : files.map Prod.fst = modulePaths url mods := by
      rw [hfiles, renderedPages_map_fst]
    rcases Bool.eq_false_or_eq_true ((mapLookup files "index.html").isSome) with hidx | hidx
    · have hmem : "index.html" ∈ modulePaths url mods := by
        rw [← hkeys]
        by_contra hni
        have hn := (mapLookup_eq_none_iff files "index.html").mpr hni
        rw [hn] at hidx
        simp at hidx
      simp only [hidx, if_true] at hm
      simp only [Except.ok.injEq] at hm
      rw [← hm, hkeys, if_pos hmem]
      simp
    · have hnm : "index.html" ∉ modulePaths url mods := by
        rw [← hkeys]
        exact (mapLookup_eq_none_iff files "index.html").mp (isSome_false_eq_none hidx)
      simp only [hidx, Bool.false_eq_true, if_false] at hm
      simp only [Except.ok.injEq] at hm
      rw [← hm, List.map_append, hkeys, if_neg hnm]
      rfl

/-- C2 (amended): BuildSite succeeds exactly when every module is placeable
under the normalized base and passes go-import validation and the computed
output paths are pairwise distinct; on success the returned map is complete
(its keys are exactly the computed paths, plus a synthesized "index.html"
when absent), and no error case returns a map (an error return carries no
map at all); it fails at the first failing descriptor in input order: with
a cannot-place error naming that import path when the import path does not
start with the normalized base, and with a duplicate-destination error
when its computed path equals that of an earlier descriptor. -/
theorem buildSite_spec (url i f : String) (mods : List Module) :
    ((∃ m, BuildSite url i f mods = .ok m) ↔
      (placeableValid url mods ∧ (modulePaths url mods).Nodup))
  ∧ (∀ m, BuildSite url i f mods = .ok m →
      m.map Prod.fst = modulePaths url mods ++
        (if "index.html" ∈ modulePaths url mods then [] else ["index.html"]))
  ∧ (∀ pre bad rest, mods = pre ++ bad :: rest →
      placeableValid url pre → (modulePaths url pre).Nodup →
      getModuleHTMLPath bad url = none →
      BuildSite url i f mods = .error (.unplaceableModule bad.ImportPath))
  ∧ (∀ pre bad rest d, mods = pre ++ bad :: rest →
      placeableValid url pre → (modulePaths url pre).Nodup →
      getModuleHTMLPath bad url = some d → d ∈ modulePaths url pre →
      BuildSite url i f mods = .error (.duplicateDestination d)) := by
  refine ⟨buildSite_ok_iff url i f mods, buildSite_ok_keys url i f mods, ?_, ?_⟩
  · intro pre bad rest hsplit hpv hnd hbad
    subst hsplit
    unfold BuildSite
    rw [buildSiteAux_err_unplaceable url f bad rest hbad pre [] [] hpv hnd (fun d _ => rfl)]
  · intro pre bad rest d hsplit hpv hnd hsome hmem
    subst hsplit
    unfold BuildSite
    rw [buildSiteAux_err_dup url f bad rest d hsome pre [] [] hpv hnd (fun d2 _ => rfl)
      (Or.inl hmem)]

/-- C2 counterexample: on a list with a duplicate pair before an
unplaceable module, BuildSite reports the duplicate-destination error, not
a cannot-place error naming the unplaceable import path, so the
per-error-kind guarantees of the claim cannot both hold unconditionally. -/
theorem buildSite_error_kind_counterexample :
    goHasPrefixStr "zzz" "b" = false
  ∧ BuildSite "b" "i" "f"
      [⟨"b/x", "git", "u", "", "", ""⟩, ⟨"b/x", "git", "u", "", "", ""⟩,
        ⟨"zzz", "git", "u", "", "", ""⟩] =
      .error (.duplicateDestination "/x/index.html")
  ∧ ¬(BuildSite "b" "i" "f"
      [⟨"b/x", "git", "u", "", "", ""⟩, ⟨"b/x", "git", "u", "", "", ""⟩,
        ⟨"zzz", "git", "u", "", "", ""⟩] =
      .error (.unplaceableModule "zzz")) := by
  refine ⟨rfl, rfl, fun h => ?_⟩
  have h2 : (Except.error (.duplicateDestination "/x/index.html") :
      Except BuildError (List (String × String))) = .error (.unplaceableModule "zzz") :=
    (rfl : BuildSite "b" "i" "f"
      [⟨"b/x", "git", "u", "", "", ""⟩, ⟨"b/x", "git", "u", "", "", ""⟩,
        ⟨"zzz", "git", "u", "", "", ""⟩] =
      .error (.duplicateDestination "/x/index.html")).symm.trans h
  simp at h2

/-- C2 witness: the first-failure characterization applied to a concrete
unplaceable module and to a concrete duplicate pair. -/
theorem buildSite_spec_witness :
    BuildSite "b" "i" "f" [⟨"zzz", "git", "u", "", "", ""⟩] =
      .error (.unplaceableModule "zzz")
  ∧ BuildSite "b" "i" "f"
      [⟨"b/x", "git", "u", "", "", ""⟩, ⟨"b/x", "git", "u", "", "", ""⟩] =
      .error (.duplicateDestination "/x/index.html") := by
  constructor
  · exact (buildSite_spec "b" "i" "f" [⟨"zzz", "git", "u", "", "", ""⟩]).2.2.1
      [] ⟨"zzz", "git", "u", "", "", ""⟩ [] rfl (by decide) (by decide) (by decide)
  · exact (buildSite_spec "b" "i" "f"
      [⟨"b/x", "git", "u", "", "", ""⟩, ⟨"b/x", "git", "u", "", "", ""⟩]).2.2.2
      [⟨"b/x", "git", "u", "", "", ""⟩] ⟨"b/x", "git", "u", "", "", ""⟩ [] "/x/index.html"
      rfl (by decide) (by decide) (by decide) (by decide)

/-- C3: when every module is valid and placeable and the computed output
paths are pairwise distinct, BuildSite succeeds and synthesizes an index
page at key "index.html" exactly when no computed path is "index.html";
for the empty list the map is exactly the single synthesized index entry,
and when no computed path is "index.html" the map has exactly N+1
entries. -/
theorem buildSite_index_spec (url i f : String) (mods : List Module)
    (h1 : placeableValid url mods) (h2 : (modulePaths url mods).Nodup) :
    ∃ m, BuildSite url i f mods = .ok m
      ∧ m.map Prod.fst = modulePaths url mods ++
          (if "index.html" ∈ modulePaths url mods then [] else ["index.html"])
      ∧ ("index.html" ∉ modulePaths url mods → m.length = mods.length + 1)
      ∧ (mods = [] → m = [("index.html", buildIndex url i f [])]) := by
  obtain ⟨m, hm⟩ := (buildSite_ok_iff url i f mods).mpr ⟨h1, h2⟩
  refine ⟨m, hm, buildSite_ok_keys url i f mods m hm, ?_, ?_⟩
  · intro hni
    have hk := buildSite_ok_keys url i f mods m hm
    rw [if_neg hni] at hk
    have hlen : (m.map Prod.fst).length = (modulePaths url mods).length + 1 := by
      rw [hk]
      simp
    rw [List.length_map] at hlen
    rw [hlen, modulePaths_length url mods h1]
  · intro hnil
    subst hnil
    have he : BuildSite url i f [] = .ok [("index.html", buildIndex url i f [])] := rfl
    rw [he] at hm
    injection hm with h
    exact h.symm

/-- C3 witness: one valid module away from the index path yields a
two-entry map. -/
theorem buildSite_index_spec_witness :
    ∃ m, BuildSite "example.org" "i" "f"
        [⟨"example.org/mod", "git", "https://example.org/mod", "", "", ""⟩] = .ok m
      ∧ m.length = 2 := by
  obtain ⟨m, hok, -, hlen, -⟩ := buildSite_index_spec "example.org" "i" "f"
    [⟨"example.org/mod", "git", "https://example.org/mod", "", "", ""⟩] (by decide) (by decide)
  exact ⟨m, hok, hlen (by decide)⟩

/-- C1 counterexample: under base "example.org" the computed output path of
the example module is not "mod/index.html" (the remainder after the base
keeps its leading slash). -/
theorem getModuleHTMLPath_example_counterexample :
    ¬(getModuleHTMLPath ⟨"example.org/mod", "git", "https://example.org/mod", "", "", ""⟩
      "example.org" = some "mod/index.html") := by
  decide

/-- C1 (amended): under base "example.org" the computed output path of the
example module is exactly "/mod/index.html", and BuildSite stores that
module page under exactly that key (together with the synthesized
index). -/
theorem getModuleHTMLPath_example :
    getModuleHTMLPath ⟨"example.org/mod", "git", "https://example.org/mod", "", "", ""⟩
      "example.org" = some "/mod/index.html"
  ∧ (BuildSite "example.org" "i" "f"
      [⟨"example.org/mod", "git", "https://example.org/mod", "", "", ""⟩]).map
        (List.map Prod.fst) = .ok ["/mod/index.html", "index.html"] :=
  ⟨rfl, rfl⟩

end Modsite
